import Mathlib

/-!
Verification of the Mjolnir airflow plugin
(`src/airflow/plugins/mjolnir_plugin.py`): a shallow embedding of the
idempotent partitioned job engine — partition path rendering, memory-spec
parsing, spark-argument merging, executor auto-sizing, operator
construction and the execute/skip/publish control flow — together with
theorems settling the specified properties.

Python strings are modelled as `List Char`, Python integers as `Int`
(arbitrary precision in both), dictionaries as association lists with
first-match lookup, and raised exceptions as `Except PyErr`.
-/

namespace Mjolnir

/-- Python strings, modelled as lists of characters. -/
abbrev PyStr := List Char

/-- Shorthand to write a concrete Python string. -/
def pys (s : String) : PyStr := s.toList

/-- The Python exceptions the plugin can raise, by kind. -/
inductive PyErr where
  /-- `TypeError` (wrong runtime type, `None` used as a cli arg, ...). -/
  | typeError
  /-- `ValueError` (e.g. `int()` on a non-numeric string). -/
  | valueError
  /-- `KeyError` from indexing a dict with a missing key. -/
  | keyError (k : PyStr)
  /-- `IndexError` (e.g. `memory[-1]` on an empty string). -/
  | indexError
  /-- A failed `assert` statement. -/
  | assertionError
  /-- `Exception('Unrecognized memory spec: ...')`. -/
  | memParse (s : PyStr)
  /-- `Exception('Expected integer or string memory value')`. -/
  | notIntOrStr
  /-- The spark-submit hook reporting a failed application. -/
  | submitFailed
deriving DecidableEq, Repr

/-- Turn an optional value into `Except`, raising `e` when absent. -/
def orRaise (o : Option α) (e : PyErr) : Except PyErr α :=
  match o with
  | some a => .ok a
  | none => .error e

/-- Association-list model of a Python dict: first-match lookup (`d[k]` /
`d.get(k)`). -/
def dictGet (d : List (PyStr × α)) (k : PyStr) : Option α :=
  (d.find? (fun kv => kv.1 == k)).map (fun kv => kv.2)

/-- `d[k] = v` on a dict: replace the first binding of `k`, or append a new
one. -/
def dictSet (d : List (PyStr × α)) (k : PyStr) (v : α) : List (PyStr × α) :=
  match d with
  | [] => [(k, v)]
  | kv :: rest =>
    if kv.1 == k then (k, v) :: rest else kv :: dictSet rest k v

/-- Python `dict(a, **b)`: `a`'s bindings updated by `b`, then `b`'s new
keys appended in order. -/
def dictUpdate (a b : List (PyStr × α)) : List (PyStr × α) :=
  (a.map (fun kv =>
    match dictGet b kv.1 with
    | some v => (kv.1, v)
    | none => kv))
  ++ b.filter (fun kv => (dictGet a kv.1).isNone)

/-- ASCII decimal digit test (the plugin only meets ASCII content, so
`str.isdigit` is modelled on ASCII digits). -/
def isPyDigit (c : Char) : Bool := '0' ≤ c && c ≤ '9'

/-- Python `s.isdigit()`: nonempty and all digits. -/
def pyIsDigitStr (s : PyStr) : Bool := !s.isEmpty && s.all isPyDigit

/-- Numeric value of a digit string. -/
def digitsToNat (s : PyStr) : Nat :=
  s.foldl (fun a c => 10 * a + (c.toNat - '0'.toNat)) 0

/-- Python `int(s)` on a string: an optional sign followed by digits
(whitespace and underscore forms do not occur in this plugin and are
modelled as failures). `none` models the raised `ValueError`. -/
def pyIntOfStr (s : PyStr) : Option Int :=
  match s with
  | '-' :: rest => if pyIsDigitStr rest then some (-(digitsToNat rest : Int)) else none
  | '+' :: rest => if pyIsDigitStr rest then some (digitsToNat rest : Int) else none
  | _ => if pyIsDigitStr s then some (digitsToNat s : Int) else none

/-- ASCII `c.upper()`. -/
def pyUpper (c : Char) : Char :=
  if 'a' ≤ c && c ≤ 'z' then Char.ofNat (c.toNat - 32) else c

/-- A value held in a spark-argument or spark-conf dict: Python ints,
strings and nested dicts. -/
inductive SparkVal where
  | int (n : Int)
  | str (s : PyStr)
  | map (kvs : List (PyStr × SparkVal))

/-- A spark argument / configuration dict. -/
abbrev SparkArgs := List (PyStr × SparkVal)

/-- `AutoSizeSpark._parse_memory_to_mb`: a bare int is already MB; a digit
string is parsed as-is; otherwise a trailing (case-insensitive) `T`/`G`/`M`
suffix scales the numeric prefix by `2^20`/`2^10`/`1`; anything else
raises. -/
def parse_memory_to_mb (memory : SparkVal) : Except PyErr Int :=
  match memory with
  | .int n => .ok n
  | .map _ => .error .notIntOrStr
  | .str s =>
    if pyIsDigitStr s then .ok (digitsToNat s : Int)
    else match s.getLast? with
      | none => .error .indexError
      | some last =>
        let scaled (scale : Int) : Except PyErr Int :=
          match pyIntOfStr s.dropLast with
          | some n => .ok (n * scale)
          | none => .error .valueError
        if pyUpper last = 'T' then scaled (2 ^ 20)
        else if pyUpper last = 'G' then scaled (2 ^ 10)
        else if pyUpper last = 'M' then scaled 1
        else .error (.memParse s)

/-- POSIX `os.path.join(a, b)`: an absolute `b` replaces `a`; otherwise a
separator is inserted unless `a` is empty or already ends with one. -/
def pyJoin2 (a b : PyStr) : PyStr :=
  if b.head? = some '/' then b
  else if a = [] ∨ a.getLast? = some '/' then a ++ b
  else a ++ '/' :: b

/-- `_partition_path`: join the table path with one `key=value` segment per
partition-spec entry, in order. -/
def partition_path (table_path : PyStr) (partition_spec : List (PyStr × PyStr)) : PyStr :=
  (partition_spec.map (fun kv => kv.1 ++ '=' :: kv.2)).foldl pyJoin2 table_path

/-- Concatenation of path components with single slash separators (the
normal form `os.path.join` produces on separator-free components). -/
def slashJoin : List PyStr → PyStr
  | [] => []
  | [c] => c
  | c :: c2 :: rest => c ++ '/' :: slashJoin (c2 :: rest)

/-- The per-key merger applied to `conf` in `_merge_spark_args`:
Python `dict(a, **b)`, a one-level update. Raises `TypeError` unless both
sides are dicts. -/
def confMerger (a b : SparkVal) : Except PyErr SparkVal :=
  match a, b with
  | .map ma, .map mb => .ok (.map (dictUpdate ma mb))
  | _, _ => .error .typeError

/-- The per-key merger applied to `packages` and `jars` in
`_merge_spark_args`: string concatenation `a + ',' + b`. Raises
`TypeError` unless both sides are strings. -/
def concatMerger (a b : SparkVal) : Except PyErr SparkVal :=
  match a, b with
  | .str sa, .str sb => .ok (.str (sa ++ ',' :: sb))
  | _, _ => .error .typeError

/-- One iteration of the merger loop in `_merge_spark_args`: when `key` is
present in both inputs, overwrite `output[key]` with the merged value. -/
def mergeOne (output : SparkArgs) (key : PyStr)
    (merger : SparkVal → SparkVal → Except PyErr SparkVal)
    (dflt override : SparkArgs) : Except PyErr SparkArgs :=
  match dictGet dflt key, dictGet override key with
  | some a, some b => do
    let v ← merger a b
    pure (dictSet output key v)
  | _, _ => pure output

/-- `_merge_spark_args`: start from `dict(default, **override)`, then for
`conf` / `packages` / `jars` present in both, replace the entry with the
key-specific merge. -/
def merge_spark_args (dflt override : SparkArgs) : Except PyErr SparkArgs := do
  let output := dictUpdate dflt override
  let output ← mergeOne output (pys "conf") confMerger dflt override
  let output ← mergeOne output (pys "packages") concatMerger dflt override
  let output ← mergeOne output (pys "jars") concatMerger dflt override
  pure output

/-- JSON-like values of the `_METADATA.JSON` artifact. -/
inductive Json where
  | num (n : Int)
  | str (s : PyStr)
  | arr (xs : List Json)
  | obj (kvs : List (PyStr × Json))

/-- Python `j[k]` on a metadata value: `KeyError` when the key is absent,
`TypeError` when `j` is not a dict. -/
def Json.idx (j : Json) (k : PyStr) : Except PyErr Json :=
  match j with
  | .obj kvs => orRaise (dictGet kvs k) (.keyError k)
  | _ => .error .typeError

/-- A metadata value used as a number (`TypeError` otherwise, as the
arithmetic it feeds would raise). -/
def Json.asNum (j : Json) : Except PyErr Int :=
  match j with
  | .num n => .ok n
  | _ => .error .typeError

/-- Python `len(j)` on a metadata value. -/
def Json.pyLen (j : Json) : Except PyErr Nat :=
  match j with
  | .arr xs => .ok xs.length
  | .str s => .ok s.length
  | .obj kvs => .ok kvs.length
  | .num _ => .error .typeError

/-- The static `AUTO_DETECT_CONFIG` table (resource budgets). -/
structure AutoConfig where
  agg_memory_limit : SparkVal
  agg_cores_limit : Int
  executor_max_memory : SparkVal
  baseline_memory_overhead : SparkVal
  bytes_per_value : List (PyStr × Int)

/-- `AUTO_DETECT_CONFIG` as defined in the plugin. -/
def AUTO_DETECT_CONFIG : AutoConfig where
  agg_memory_limit := .str (pys "1T")
  agg_cores_limit := 450
  executor_max_memory := .str (pys "50G")
  baseline_memory_overhead := .str (pys "512M")
  bytes_per_value := [(pys "make_folds", 30), (pys "hyperparam", 30), (pys "train", 20)]

/-- `AutoSizeSpark._detect_dimensions`: for `make_folds` the artifact is
sharded per wiki (`num_obs[wiki]`, `len(wiki_features[wiki])`, with an
`assert` that a wiki was supplied); for every other transformer the values
are read from the nested `metadata` object (`metadata['metadata']`), with
an `assert` that no wiki was supplied. -/
def detect_dimensions (transformer : PyStr) (wiki : Option PyStr) (metadata : Json) :
    Except PyErr (Int × Nat) :=
  if transformer = pys "make_folds" then
    match wiki with
    | none => .error .assertionError
    | some w => do
      let numObsMap ← metadata.idx (pys "num_obs")
      let numObs ← (← numObsMap.idx w).asNum
      let featMap ← metadata.idx (pys "wiki_features")
      let numFeat ← (← featMap.idx w).pyLen
      pure (numObs, numFeat)
  else
    match wiki with
    | some _ => .error .assertionError
    | none => do
      let inner ← metadata.idx (pys "metadata")
      let numObs ← (← inner.idx (pys "num_obs")).asNum
      let numFeat ← (← inner.idx (pys "features")).pyLen
      pure (numObs, numFeat)

/-- `AutoSizeSpark._detect_memory_overhead_mb`:
`int(baseline + num_obs * (num_features + 1) * bytes_per_value / 2^20)`.
Python divides with `/` (exact value) and `int(...)` truncates; on the
nonnegative sizes this plugin meets, that is floor division, modelled with
`Int.fdiv`. -/
def detect_memory_overhead_mb (config : AutoConfig) (transformer : PyStr)
    (dim : Int × Nat) : Except PyErr Int := do
  let bytes_per_value ← orRaise (dictGet config.bytes_per_value transformer)
    (.keyError transformer)
  let bytes_estimate := dim.1 * ((dim.2 : Int) + 1) * bytes_per_value
  let baseline ← parse_memory_to_mb config.baseline_memory_overhead
  pure (baseline + Int.fdiv bytes_estimate (2 ^ 20))

/-- Python `int(x)` on a conf value (`spark.executor.cores` may be an int
or a numeric string). -/
def pyIntOfVal (v : SparkVal) : Except PyErr Int :=
  match v with
  | .int n => .ok n
  | .str s => orRaise (pyIntOfStr s) .valueError
  | .map _ => .error .typeError

/-- The memory-budget component of `AutoSizeSpark._limit_max_executors`:
`agg_memory_limit // (executor.memory + executor.memoryOverhead)`, the
overhead defaulting to `'256m'`. Python `//` is floor division. -/
def executor_budget_by_memory (config : AutoConfig) (spark_conf : SparkArgs) :
    Except PyErr Int := do
  let memVal ← orRaise (dictGet spark_conf (pys "spark.executor.memory"))
    (.keyError (pys "spark.executor.memory"))
  let mem ← parse_memory_to_mb memVal
  let ovVal := (dictGet spark_conf (pys "spark.executor.memoryOverhead")).getD
    (.str (pys "256m"))
  let overhead ← parse_memory_to_mb ovVal
  let memory_limit ← parse_memory_to_mb config.agg_memory_limit
  pure (Int.fdiv memory_limit (mem + overhead))

/-- The core-budget component of `AutoSizeSpark._limit_max_executors`:
`agg_cores_limit // executor.cores`, the cores defaulting to 1. -/
def executor_budget_by_cores (config : AutoConfig) (spark_conf : SparkArgs) :
    Except PyErr Int := do
  let coresVal := (dictGet spark_conf (pys "spark.executor.cores")).getD (.int 1)
  let cores ← pyIntOfVal coresVal
  pure (Int.fdiv config.agg_cores_limit cores)

/-- `AutoSizeSpark._limit_max_executors`: the minimum of the memory-budget
and core-budget executor counts. -/
def limit_max_executors (config : AutoConfig) (spark_conf : SparkArgs) :
    Except PyErr Int := do
  let by_memory ← executor_budget_by_memory config spark_conf
  let by_cores ← executor_budget_by_cores config spark_conf
  pure (min by_memory by_cores)

/-- `AutoSizeSpark.apply`: for transformers registered in
`bytes_per_value`, read the metadata artifact, detect dimensions and
overwrite `spark.executor.memoryOverhead` with the estimate; then, for
every transformer, overwrite `spark.dynamicAllocation.maxExecutors` with
the budget limit. The metadata artifact (read from the filesystem in
Python) is passed in as `metadata`. -/
def AutoSizeSpark.apply (config : AutoConfig) (transformer : PyStr)
    (wiki : Option PyStr) (metadata : Json) (spark_conf : SparkArgs) :
    Except PyErr SparkArgs := do
  let conf1 ←
    if (dictGet config.bytes_per_value transformer).isSome then do
      let dim ← detect_dimensions transformer wiki metadata
      let overhead ← detect_memory_overhead_mb config transformer dim
      pure (dictSet spark_conf (pys "spark.executor.memoryOverhead") (.int overhead))
    else
      pure spark_conf
  let max_executors ← limit_max_executors config conf1
  pure (dictSet conf1 (pys "spark.dynamicAllocation.maxExecutors") (.int max_executors))

/-- A transformer-argument value: Python `None`, ints, strings, or a list
of values (multi-value cli args). -/
inductive PyVal where
  | none
  | int (n : Int)
  | str (s : PyStr)
  | list (xs : List PyVal)

/-- Python `str(arg)` on an argument value. `None` is checked before being
rendered; nested lists never occur as list elements in the pipeline, so
their textual form is not modelled further. -/
def PyVal.render (v : PyVal) : PyStr :=
  match v with
  | .none => pys "None"
  | .int n => (toString n).toList
  | .str s => s
  | .list _ => pys "<list>"

/-- Lexicographic (code-point) `<=` on Python strings, as used by
`sorted`. -/
def pyStrLe : PyStr → PyStr → Bool
  | [], _ => true
  | _ :: _, [] => false
  | a :: as_, b :: bs =>
    if a < b then true
    else if a = b then pyStrLe as_ bs
    else false

/-- Insert into a `le`-sorted list. -/
def insertSorted (le : α → α → Bool) (x : α) : List α → List α
  | [] => [x]
  | y :: ys => if le x y then x :: y :: ys else y :: insertSorted le x ys

/-- `sorted(items, key=lambda x: x[0])` on dict items (keys are unique, so
stability is irrelevant). -/
def sortByKey (l : List (PyStr × PyVal)) : List (PyStr × PyVal) :=
  l.foldr (insertSorted (fun a b => pyStrLe a.1 b.1)) []

/-- The per-value list Python iterates for one argument: a list value is
multi-arg, anything else is wrapped in a singleton. -/
def argValues (v : PyVal) : List PyVal :=
  match v with
  | .list xs => xs
  | v => [v]

/-- The body of the value loop in `MjolnirOperator._application_args`:
raise `TypeError('None is not a valid cli arg')` on a `None` value,
otherwise append `str(arg)`. -/
def renderOneArg (acc : List PyStr) (arg : PyVal) : Except PyErr (List PyStr) :=
  match arg with
  | .none => .error .typeError
  | a => pure (acc ++ [a.render])

/-- One iteration of the argument loop in
`MjolnirOperator._application_args`: append `--key` and the rendered
values. -/
def appendArg (acc : List PyStr) (kv : PyStr × PyVal) : Except PyErr (List PyStr) :=
  (argValues kv.2).foldlM renderOneArg (acc ++ [pys "--" ++ kv.1])

/-- Python `arg is None` on an argument value. -/
def PyVal.isNone (v : PyVal) : Bool :=
  match v with
  | .none => true
  | _ => false

/-- Whether an argument value trips the `None` check in
`_application_args`: it is `None` itself, or a list holding a `None`
element. -/
def argHasNone (v : PyVal) : Bool :=
  match v with
  | .none => true
  | .list xs => xs.any PyVal.isNone
  | _ => false

/-- `MjolnirOperator._application_args`: the transformer name, the
`--date` and `--output-path` conventions, then the transformer args sorted
by key; `None` anywhere raises `TypeError`. -/
def application_args (transformer : PyStr) (transformer_args : List (PyStr × PyVal))
    (ds output_path : PyStr) : Except PyErr (List PyStr) :=
  (sortByKey transformer_args).foldlM appendArg
    [transformer, pys "--date", ds, pys "--output-path", output_path]

/-- The deployment locations the operator reads
(`self._deploys[...]`; always provided by the DAGs). -/
structure Deploys where
  mjolnir_venv : PyStr
  refinery : PyStr
  discovery_analytics : PyStr

/-- `MjolnirOperator._default_spark_args`. -/
def default_spark_args (deploys : Deploys) : SparkArgs :=
  [ (pys "archives", .str (deploys.mjolnir_venv ++ pys "#mjolnir_venv")),
    (pys "driver_memory", .str (pys "2g")),
    (pys "packages", .str (pys "org.wikimedia.search:mjolnir:0.5-SNAPSHOT")),
    (pys "jars", .str (pyJoin2 deploys.refinery (pys "artifacts/refinery-hive.jar"))),
    (pys "conf", .map
      [ (pys "spark.yarn.maxAppAttempts", .str (pys "1")),
        (pys "spark.pyspark.python", .str (pys "mjolnir_venv/bin/python")),
        (pys "spark.jars.ivySettings", .str (pys "/etc/maven/ivysettings.xml")),
        (pys "spark.executor.memory", .str (pys "2g")),
        (pys "spark.dynamicAllocation.maxExecutors", .str (pys "600")),
        (pys "spark.sql.shuffle.partitions", .str (pys "1000")) ]) ]

/-- The registry `KNOWN_TRANSFORMERS`. -/
def KNOWN_TRANSFORMERS : List PyStr :=
  [pys "dbn", pys "hyperparam", pys "norm_query_clustering",
   pys "train", pys "feature_selection", pys "make_folds",
   pys "feature_vectors", pys "query_clicks_ltr"]

/-- The state a constructed `MjolnirOperator` carries. -/
structure Stage where
  task_id : PyStr
  transformer : PyStr
  transformer_args : List (PyStr × PyVal)
  deploys : Deploys
  spark_args : SparkArgs
  table : PyStr
  partition_spec : List (PyStr × PyStr)
  marker : PyStr
  auto_size_metadata_dir : Option PyStr

/-- `MjolnirOperator.__init__`. `ds` is the run's logical date: the
constructor stores the template `{{ ds_nodash }}` which the orchestrator
renders to `ds` before `execute`, so the embedding binds the date
directly. An empty-string `transformer` is falsy in Python, so
`transformer or task_id` falls back to the task id. Raises `ValueError`
for a transformer outside the registry; the argument payload is stored
unexamined. -/
def MjolnirOperator.init (task_id table : PyStr)
    (partition_spec : List (PyStr × PyStr)) (deploys : Deploys) (ds : PyStr)
    (marker : PyStr := pys "_SUCCESS") (transformer : Option PyStr := Option.none)
    (transformer_args : List (PyStr × PyVal) := [])
    (spark_args : SparkArgs := [])
    (auto_size_metadata_dir : Option PyStr := Option.none) :
    Except PyErr Stage :=
  let t := match transformer with
    | some s => if s = [] then task_id else s
    | Option.none => task_id
  if t ∈ KNOWN_TRANSFORMERS then
    .ok { task_id := task_id, transformer := t,
          transformer_args := transformer_args, deploys := deploys,
          spark_args := spark_args, table := table,
          partition_spec := (pys "date", ds) :: partition_spec,
          marker := marker,
          auto_size_metadata_dir := auto_size_metadata_dir }
  else
    .error .valueError

/-- The observable actions of one `execute` call, in order. -/
inductive Event where
  /-- `_marker_exists`: existence check of the marker path. -/
  | checkMarker (marker_path : PyStr)
  /-- `_application_args` invoked. -/
  | buildArgs
  /-- `_read_metadata`: the `_METADATA.JSON` artifact read. -/
  | readMetadata
  /-- `AutoSizeSpark.apply` invoked. -/
  | autoSize
  /-- The spark-submit hook built and submitted. -/
  | submit (application_args : List PyStr) (spark_args : SparkArgs)
  /-- `xcom_push`: a record published for dependent tasks. -/
  | xcomPush (key : PyStr) (value : PyStr)

/-- The external world one `execute` call sees: whether the marker exists,
the metadata artifact's contents, and whether the submitted application
succeeds. -/
structure ExecEnv where
  marker_exists : Bool
  metadata : Json
  submit_ok : Bool

/-- `self._transformer_args.get('wiki')`, as the shard key handed to
`AutoSizeSpark` (only string-valued wiki arguments occur in the DAGs). -/
def stageWiki (op : Stage) : Option PyStr :=
  match dictGet op.transformer_args (pys "wiki") with
  | some (.str s) => some s
  | _ => Option.none

/-- `MjolnirOperator._execute`: build the application args, merge spark
args over the defaults (only when overrides were given), auto-size the
conf, then build and submit the hook. Returns the events performed and
the outcome. `_sort_items_recursive` only reorders dict entries for
deterministic presentation and is not modelled. -/
def MjolnirOperator.execInner (op : Stage) (env : ExecEnv) (ds output_path : PyStr) :
    List Event × Except PyErr Unit :=
  match application_args op.transformer op.transformer_args ds output_path with
  | .error e => ([.buildArgs], .error e)
  | .ok app_args =>
    let dflt := default_spark_args op.deploys
    match (if op.spark_args.isEmpty then Except.ok dflt
           else merge_spark_args dflt op.spark_args) with
    | .error e => ([.buildArgs], .error e)
    | .ok spark_args =>
      match dictGet spark_args (pys "conf") with
      | Option.none => ([.buildArgs], .error (.keyError (pys "conf")))
      | some (.int _) => ([.buildArgs], .error .typeError)
      | some (.str _) => ([.buildArgs], .error .typeError)
      | some (.map conf) =>
        let readEvents :=
          if (dictGet AUTO_DETECT_CONFIG.bytes_per_value op.transformer).isSome
          then [Event.readMetadata] else []
        match AutoSizeSpark.apply AUTO_DETECT_CONFIG op.transformer
            (stageWiki op) env.metadata conf with
        | .error e => ([.buildArgs] ++ readEvents ++ [.autoSize], .error e)
        | .ok conf2 =>
          let final_args := dictSet spark_args (pys "conf") (.map conf2)
          let events := [Event.buildArgs] ++ readEvents
            ++ [Event.autoSize, Event.submit app_args final_args]
          if env.submit_ok then (events, .ok ())
          else (events, .error .submitFailed)

/-- `MjolnirOperator.execute`: resolve the output path (`table_path` is
the metastore-resolved table location), check the marker, skip or run,
and in either successful case publish the output path over xcom. A raise
in `_execute` propagates before the publish. -/
def MjolnirOperator.execute (op : Stage) (env : ExecEnv) (table_path ds : PyStr) :
    List Event × Except PyErr Unit :=
  let output_path := partition_path table_path op.partition_spec
  let check := [Event.checkMarker (pyJoin2 output_path op.marker)]
  if env.marker_exists then
    (check ++ [Event.xcomPush (pys "output-path") output_path], .ok ())
  else
    match MjolnirOperator.execInner op env ds output_path with
    | (evs, .ok _) =>
      (check ++ evs ++ [Event.xcomPush (pys "output-path") output_path], .ok ())
    | (evs, .error e) => (check ++ evs, .error e)

/-! ## Concrete instances used in the claim theorems -/

/-- The spark conf of the claimed executor-cap instance: 2G executor
memory, 6 cores, no explicit memory overhead. -/
def memoryCapConf : SparkArgs :=
  [(pys "spark.executor.memory", .str (pys "2G")),
   (pys "spark.executor.cores", .int 6)]

/-- A metadata artifact of the shape the claim describes for the unsharded
case: `num_obs` and `features` as top-level fields. -/
def unshardedTopLevelMeta : Json :=
  .obj [(pys "num_obs", .num 5), (pys "features", .arr [])]

/-- A metadata artifact of the shape the code actually reads in the
unsharded case: the fields nested under a top-level `metadata` object. -/
def nestedMeta : Json :=
  .obj [(pys "metadata",
    .obj [(pys "num_obs", .num 5), (pys "features", .arr [.str (pys "f1")])])]

/-- A default profile whose configuration map holds a nested map under
`x`. -/
def confNestedDefault : SparkArgs :=
  [(pys "conf", .map [(pys "x", .map [(pys "a", .str (pys "1"))])])]

/-- An override profile whose configuration map holds a different nested
map under the same key `x`. -/
def confNestedOverride : SparkArgs :=
  [(pys "conf", .map [(pys "x", .map [(pys "b", .str (pys "2"))])])]

/-- The keys of the nested map stored under `r[outerKey][innerKey]`, when
that shape exists. -/
def confSubKeys (r : SparkArgs) (outerKey innerKey : PyStr) : Option (List PyStr) :=
  match dictGet r outerKey with
  | some (.map m) =>
    match dictGet m innerKey with
    | some (.map inner) => some (inner.map (fun kv => kv.1))
    | _ => Option.none
  | _ => Option.none

/-- Concrete deployment locations, as the DAGs supply them. -/
def exampleDeploys : Deploys where
  mjolnir_venv := pys "/srv/mjolnir_venv.zip"
  refinery := pys "/srv/refinery"
  discovery_analytics := pys "/srv/discovery-analytics"

/-- A concrete constructed stage (the `query_clicks_ltr` transformer is
not registered for overhead estimation, so no metadata is needed). -/
def exampleStage : Stage where
  task_id := pys "query_clicks_ltr"
  transformer := pys "query_clicks_ltr"
  transformer_args := []
  deploys := exampleDeploys
  spark_args := []
  table := pys "discovery.query_clicks"
  partition_spec := [(pys "date", pys "20250101")]
  marker := pys "_SUCCESS"
  auto_size_metadata_dir := Option.none

/-- A stage whose argument payload contains a null value. -/
def nullArgStage : Stage :=
  { exampleStage with
    task_id := pys "train"
    transformer := pys "train"
    transformer_args := [(pys "foo", PyVal.none)] }

/-! ## Dictionary lemmas -/

theorem dictGet_cons (kv : PyStr × α) (d : List (PyStr × α)) (k : PyStr) :
    dictGet (kv :: d) k = if kv.1 = k then some kv.2 else dictGet d k := by
  by_cases h : kv.1 = k
  · have hb : (kv.1 == k) = true := by simp [h]
    simp [dictGet, List.find?, hb, h]
  · have hb : (kv.1 == k) = false := by simp [h]
    simp [dictGet, List.find?, hb, h]

theorem dictSet_cons (kv : PyStr × α) (d : List (PyStr × α)) (k : PyStr) (v : α) :
    dictSet (kv :: d) k v = if kv.1 = k then (k, v) :: d else kv :: dictSet d k v := by
  by_cases h : kv.1 = k <;> simp [dictSet, h]

theorem dictGet_dictSet_self (d : List (PyStr × α)) (k : PyStr) (v : α) :
    dictGet (dictSet d k v) k = some v := by
  induction d with
  | nil => simp [dictSet, dictGet_cons]
  | cons kv rest ih =>
    by_cases h : kv.1 = k <;> simp [dictSet_cons, h, dictGet_cons, ih]

theorem dictGet_dictSet_ne (d : List (PyStr × α)) (k k' : PyStr) (v : α)
    (h : k ≠ k') : dictGet (dictSet d k v) k' = dictGet d k' := by
  induction d with
  | nil => simp [dictSet, dictGet_cons, h]
  | cons kv rest ih =>
    by_cases hk : kv.1 = k
    · simp [dictSet_cons, hk, dictGet_cons, h, Ne.symm h]
    · by_cases hk' : kv.1 = k' <;>
        simp [dictSet_cons, hk, dictGet_cons, hk', ih, Ne.symm h]

theorem dictGet_append (a b : List (PyStr × α)) (k : PyStr) :
    dictGet (a ++ b) k = (dictGet a k).or (dictGet b k) := by
  induction a with
  | nil => simp [dictGet]
  | cons kv rest ih =>
    by_cases h : kv.1 = k <;>
      simp [dictGet_cons, h, List.cons_append, ih]

/-! ## Except-monad reduction lemmas -/

theorem exc_bind_ok (a : α) (f : α → Except ε β) :
    (Except.ok a : Except ε α) >>= f = f a := rfl

theorem exc_bind_error (e : ε) (f : α → Except ε β) :
    (Except.error e : Except ε α) >>= f = Except.error e := rfl

theorem exc_map_ok (a : α) (f : α → β) :
    f <$> (Except.ok a : Except ε α) = Except.ok (f a) := rfl

theorem exc_map_error (e : ε) (f : α → β) :
    f <$> (Except.error e : Except ε α) = Except.error e := rfl

theorem exc_pure (a : α) : (pure a : Except ε α) = Except.ok a := rfl

/-! ## Memory parsing (C5) -/

theorem pyIsDigitStr_concat_nondigit (p : PyStr) (c : Char)
    (h : isPyDigit c = false) : pyIsDigitStr (p ++ [c]) = false := by
  simp [pyIsDigitStr, List.all_append, h]

/-- Claim C5: memory parsing maps a bare integer to itself (already MB)
and a string with trailing case-insensitive suffix `T`, `G`, or `M` to its
numeric prefix times `2^20`, `2^10`, or `1` respectively; in particular
`parseMemory("2G") = 2048`, `parseMemory("512M") = 512`,
`parseMemory("1T") = 1048576`, `parseMemory(2048) = 2048`; and any other
form (e.g. `"2X"`) fails with a memory-parse error. -/
theorem C5_parse_memory :
    (∀ n : Int, parse_memory_to_mb (.int n) = .ok n) ∧
    (∀ (p : PyStr) (n : Int) (c : Char), pyIntOfStr p = some n →
      ((c = 'T' ∨ c = 't') →
        parse_memory_to_mb (.str (p ++ [c])) = .ok (n * 2 ^ 20)) ∧
      ((c = 'G' ∨ c = 'g') →
        parse_memory_to_mb (.str (p ++ [c])) = .ok (n * 2 ^ 10)) ∧
      ((c = 'M' ∨ c = 'm') →
        parse_memory_to_mb (.str (p ++ [c])) = .ok (n * 1))) ∧
    parse_memory_to_mb (.str (pys "2G")) = .ok 2048 ∧
    parse_memory_to_mb (.str (pys "512M")) = .ok 512 ∧
    parse_memory_to_mb (.str (pys "1T")) = .ok 1048576 ∧
    parse_memory_to_mb (.int 2048) = .ok 2048 ∧
    parse_memory_to_mb (.str (pys "2X")) = .error (.memParse (pys "2X")) ∧
    (∀ (s : PyStr) (c : Char), s.getLast? = some c →
      pyIsDigitStr s = false →
      pyUpper c ≠ 'T' → pyUpper c ≠ 'G' → pyUpper c ≠ 'M' →
      parse_memory_to_mb (.str s) = .error (.memParse s)) := by
  refine ⟨fun n => rfl, ?_, rfl, rfl, rfl, rfl, rfl, ?_⟩
  · intro p n c hp
    refine ⟨?_, ?_, ?_⟩ <;> rintro (rfl | rfl) <;>
      simp [parse_memory_to_mb, pyIsDigitStr_concat_nondigit, isPyDigit,
        List.getLast?_concat, List.dropLast_concat, pyUpper, hp]
  · intro s c hlast hdig hT hG hM
    simp [parse_memory_to_mb, hdig, hlast, hT, hG, hM]

/-- Witness for C5: the suffix rule applied at the concrete input `"7G"`. -/
theorem C5_parse_memory_witness :
    parse_memory_to_mb (.str (pys "7" ++ ['G'])) = .ok (7 * 2 ^ 10) :=
  ((C5_parse_memory.2.1 (pys "7") 7 'G' rfl).2.1 (Or.inl rfl))

/-! ## Executor auto-sizing (C2, C3) -/


/-- Counterexample to C2 as stated: with `executorMemory = "2G"`, 6 cores
and no explicit overhead, the memory-derived executor bound is
`1048576 // (2048 + 256) = 455`, not the claimed `1048576 / 2048 = 512`
(the code adds the default 256M overhead before dividing, as the claim's
own general formula requires). -/
theorem C2_counterexample :
    executor_budget_by_memory AUTO_DETECT_CONFIG memoryCapConf = .ok 455 ∧
    executor_budget_by_memory AUTO_DETECT_CONFIG memoryCapConf ≠ .ok 512 := by
  refine ⟨rfl, fun h => ?_⟩
  have h455 : executor_budget_by_memory AUTO_DETECT_CONFIG memoryCapConf
      = .ok 455 := rfl
  rw [h455] at h
  have := Except.ok.inj h
  omega

/-- Claim C2 (amended): for every resource profile, max parallel executors
is `min(agg_memory_budget // (executorMemory + executorMemoryOverhead),
agg_core_budget // executorCores)` with the overhead defaulting to 256M
and the cores to 1; at the claimed instance the memory-derived bound is
`1048576 // (2048 + 256) = 455` (not 512), the cores-derived bound is
`450 // 6 = 75`, and the result `min(455, 75) = 75`; and the
max-executors field is written for every transformer kind, registered in
the bytes-per-value table or not. -/
theorem C2_max_executors :
    (∀ (config : AutoConfig) (conf : SparkArgs) (memVal : SparkVal)
        (em om cores lim : Int),
      dictGet conf (pys "spark.executor.memory") = some memVal →
      parse_memory_to_mb memVal = .ok em →
      parse_memory_to_mb
        ((dictGet conf (pys "spark.executor.memoryOverhead")).getD
          (.str (pys "256m"))) = .ok om →
      pyIntOfVal ((dictGet conf (pys "spark.executor.cores")).getD (.int 1))
        = .ok cores →
      parse_memory_to_mb config.agg_memory_limit = .ok lim →
      limit_max_executors config conf
        = .ok (min (Int.fdiv lim (em + om))
                   (Int.fdiv config.agg_cores_limit cores))) ∧
    executor_budget_by_memory AUTO_DETECT_CONFIG memoryCapConf = .ok 455 ∧
    executor_budget_by_cores AUTO_DETECT_CONFIG memoryCapConf = .ok 75 ∧
    limit_max_executors AUTO_DETECT_CONFIG memoryCapConf = .ok 75 ∧
    (∀ (t : PyStr) (wiki : Option PyStr) (md : Json) (conf r : SparkArgs),
      AutoSizeSpark.apply AUTO_DETECT_CONFIG t wiki md conf = .ok r →
      ∃ n : Int, dictGet r (pys "spark.dynamicAllocation.maxExecutors")
        = some (.int n)) := by
  refine ⟨?_, rfl, rfl, rfl, ?_⟩
  · intro config conf memVal em om cores lim h1 h2 h3 h4 h5
    simp [limit_max_executors, executor_budget_by_memory,
      executor_budget_by_cores, orRaise, h1, h2, h3, h4, h5,
      exc_bind_ok, exc_bind_error, exc_pure]
  · intro t wiki md conf r hr
    unfold AutoSizeSpark.apply at hr
    by_cases hreg : (dictGet AUTO_DETECT_CONFIG.bytes_per_value t).isSome
    · simp only [hreg, if_true] at hr
      rcases hd : detect_dimensions t wiki md with e | dim
      · simp [hd, exc_bind_error] at hr
      · simp only [hd, exc_bind_ok] at hr
        rcases hov : detect_memory_overhead_mb AUTO_DETECT_CONFIG t dim with e | v
        · simp [hov, exc_bind_error, exc_bind_ok] at hr
        · simp only [hov, exc_bind_ok, exc_pure] at hr
          rcases hmx : limit_max_executors AUTO_DETECT_CONFIG
              (dictSet conf (pys "spark.executor.memoryOverhead") (.int v)) with e | mx
          · simp [hmx, exc_map_error, exc_bind_error, exc_bind_ok] at hr
          · simp only [hmx, exc_map_ok, exc_bind_ok, Except.ok.injEq] at hr
            exact ⟨mx, by rw [← hr]; exact dictGet_dictSet_self _ _ _⟩
    · simp only [hreg, if_false, Bool.false_eq_true] at hr
      rcases hmx : limit_max_executors AUTO_DETECT_CONFIG conf with e | mx
      · simp [hmx, exc_map_error, exc_bind_error, exc_bind_ok, exc_pure] at hr
      · simp only [hmx, exc_map_ok, exc_bind_ok, exc_pure, Except.ok.injEq] at hr
        exact ⟨mx, by rw [← hr]; exact dictGet_dictSet_self _ _ _⟩

/-- Witness for C2: the cap formula applied at the claimed instance,
yielding `min(455, 75)`. -/
theorem C2_max_executors_witness :
    limit_max_executors AUTO_DETECT_CONFIG memoryCapConf
      = .ok (min (Int.fdiv 1048576 (2048 + 256)) (Int.fdiv (450 : Int) 6)) :=
  C2_max_executors.1 AUTO_DETECT_CONFIG memoryCapConf (.str (pys "2G"))
    2048 256 6 1048576 rfl rfl rfl rfl rfl

theorem detect_memory_overhead_eq (t : PyStr) (b : Int)
    (hb : dictGet AUTO_DETECT_CONFIG.bytes_per_value t = some b)
    (num_obs : Int) (num_feat : Nat) :
    detect_memory_overhead_mb AUTO_DETECT_CONFIG t (num_obs, num_feat)
      = .ok (512 + Int.fdiv (num_obs * ((num_feat : Int) + 1) * b) (2 ^ 20)) := by
  simp [detect_memory_overhead_mb, orRaise, hb]
  rfl

/-- Claim C3: for every registered transformer kind, the estimated memory
overhead written into the profile (overwriting any prior value) is
`baselineOverheadMB + (num_obs * (num_features + 1) * bytes_per_value) / 2^20`
truncated to an integer, with baseline 512; at the claimed instance
(1,000,000 observations, 99 features, 30 bytes/value) it is 3373 MB. -/
theorem C3_memory_overhead :
    (∀ (t : PyStr) (b : Int), dictGet AUTO_DETECT_CONFIG.bytes_per_value t = some b →
      ∀ (num_obs : Int) (num_feat : Nat),
        detect_memory_overhead_mb AUTO_DETECT_CONFIG t (num_obs, num_feat)
          = .ok (512 + Int.fdiv (num_obs * ((num_feat : Int) + 1) * b) (2 ^ 20))) ∧
    detect_memory_overhead_mb AUTO_DETECT_CONFIG (pys "make_folds") (1000000, 99)
      = .ok 3373 ∧
    (∀ (t : PyStr) (b : Int) (wiki : Option PyStr) (md : Json)
        (conf r : SparkArgs) (dim : Int × Nat),
      dictGet AUTO_DETECT_CONFIG.bytes_per_value t = some b →
      detect_dimensions t wiki md = .ok dim →
      AutoSizeSpark.apply AUTO_DETECT_CONFIG t wiki md conf = .ok r →
      dictGet r (pys "spark.executor.memoryOverhead")
        = some (.int (512 + Int.fdiv (dim.1 * ((dim.2 : Int) + 1) * b) (2 ^ 20)))) := by
  refine ⟨fun t b hb => detect_memory_overhead_eq t b hb, rfl, ?_⟩
  intro t b wiki md conf r dim hb hd hr
  unfold AutoSizeSpark.apply at hr
  have hov : detect_memory_overhead_mb AUTO_DETECT_CONFIG t dim
      = .ok (512 + Int.fdiv (dim.1 * ((dim.2 : Int) + 1) * b) (2 ^ 20)) :=
    detect_memory_overhead_eq t b hb dim.1 dim.2
  simp only [hb, Option.isSome_some, if_true, hd, hov, exc_bind_ok, exc_pure] at hr
  rcases hmx : limit_max_executors AUTO_DETECT_CONFIG
      (dictSet conf (pys "spark.executor.memoryOverhead")
        (.int (512 + Int.fdiv (dim.1 * ((dim.2 : Int) + 1) * b) (2 ^ 20)))) with e | mx
  · rw [hmx] at hr
    simp only [exc_bind_error, exc_map_error] at hr
    exact Except.noConfusion hr
  · rw [hmx] at hr
    simp only [exc_bind_ok, exc_map_ok, exc_pure, Except.ok.injEq] at hr
    rw [← hr, dictGet_dictSet_ne _ _ _ _ (by decide), dictGet_dictSet_self]

/-- Witness for C3: the overhead formula applied at a concrete registered
transformer (`train`, 20 bytes per value) and dimensions. -/
theorem C3_memory_overhead_witness :
    detect_memory_overhead_mb AUTO_DETECT_CONFIG (pys "train") (10, 5)
      = .ok (512 + Int.fdiv (10 * ((5 : Int) + 1) * 20) (2 ^ 20)) :=
  C3_memory_overhead.1 (pys "train") 20 rfl 10 5

/-! ## Metadata artifact shapes (C4) -/



/-- Counterexample to C4 as stated: an unsharded artifact with top-level
`num_obs`/`features` fields is not read directly — the code indexes a
nested `metadata` object and raises `KeyError('metadata')` on this
artifact, where the claim promises dimensions `(5, 0)`. -/
theorem C4_counterexample :
    detect_dimensions (pys "hyperparam") Option.none unshardedTopLevelMeta
        = .error (.keyError (pys "metadata")) ∧
    detect_dimensions (pys "hyperparam") Option.none unshardedTopLevelMeta
        ≠ .ok (5, 0) := by
  refine ⟨rfl, fun h => ?_⟩
  have herr : detect_dimensions (pys "hyperparam") Option.none unshardedTopLevelMeta
      = .error (.keyError (pys "metadata")) := rfl
  rw [herr] at h
  exact Except.noConfusion h

/-- Claim C4 (amended): dimension detection branches on the transformer
kind, not on shard-key presence: for `make_folds` a shard key must be
supplied (`assert`) and the sharded shape
`{num_obs: {key: n}, wiki_features: {key: [...]}}` is indexed by it, an
absent key raising `KeyError`; for every other transformer the shard key
must be absent (`assert`) and the values are read from the nested
`{'metadata': {num_obs, features}}` object, not from top-level fields;
shard-key/kind mismatch fails with an assertion error rather than
silently coercing. -/
theorem C4_detect_dimensions :
    (∀ (w : PyStr) (metadata noMap fMap : Json) (n : Int) (l : List Json),
      metadata.idx (pys "num_obs") = .ok noMap →
      noMap.idx w = .ok (.num n) →
      metadata.idx (pys "wiki_features") = .ok fMap →
      fMap.idx w = .ok (.arr l) →
      detect_dimensions (pys "make_folds") (some w) metadata = .ok (n, l.length)) ∧
    (∀ (w : PyStr) (metadata noMap : Json),
      metadata.idx (pys "num_obs") = .ok noMap →
      noMap.idx w = .error (.keyError w) →
      detect_dimensions (pys "make_folds") (some w) metadata
        = .error (.keyError w)) ∧
    (∀ metadata : Json,
      detect_dimensions (pys "make_folds") Option.none metadata
        = .error .assertionError) ∧
    (∀ (t w : PyStr) (metadata : Json), t ≠ pys "make_folds" →
      detect_dimensions t (some w) metadata = .error .assertionError) ∧
    (∀ (t : PyStr) (metadata inner : Json) (n : Int) (l : List Json),
      t ≠ pys "make_folds" →
      metadata.idx (pys "metadata") = .ok inner →
      inner.idx (pys "num_obs") = .ok (.num n) →
      inner.idx (pys "features") = .ok (.arr l) →
      detect_dimensions t Option.none metadata = .ok (n, l.length)) := by
  refine ⟨?_, ?_, ?_, ?_, ?_⟩
  · intro w metadata noMap fMap n l h1 h2 h3 h4
    simp [detect_dimensions, h1, h2, h3, h4, Json.asNum, Json.pyLen,
      exc_bind_ok, exc_pure]
  · intro w metadata noMap h1 h2
    simp [detect_dimensions, h1, h2, exc_bind_ok, exc_bind_error]
  · intro metadata
    simp [detect_dimensions]
  · intro t w metadata ht
    simp [detect_dimensions, ht]
  · intro t metadata inner n l ht h1 h2 h3
    simp [detect_dimensions, ht, h1, h2, h3, Json.asNum, Json.pyLen,
      exc_bind_ok, exc_pure]

/-- Witness for C4: the nested unsharded shape read for the `hyperparam`
transformer with no shard key. -/
theorem C4_detect_dimensions_witness :
    detect_dimensions (pys "hyperparam") Option.none nestedMeta
      = .ok (5, [Json.str (pys "f1")].length) :=
  C4_detect_dimensions.2.2.2.2 (pys "hyperparam") nestedMeta
    (.obj [(pys "num_obs", .num 5), (pys "features", .arr [.str (pys "f1")])])
    5 [.str (pys "f1")] (by decide) rfl rfl rfl

/-! ## Spark-argument merging (C6) -/

theorem dictGet_filter_congr (b : List (PyStr × α)) (p q : PyStr × α → Bool)
    (k : PyStr) (h : ∀ kv : PyStr × α, kv.1 = k → p kv = q kv) :
    dictGet (b.filter p) k = dictGet (b.filter q) k := by
  induction b with
  | nil => rfl
  | cons kv rest ih =>
    by_cases hk : kv.1 = k
    · have hpq := h kv hk
      cases hp : p kv <;> cases hq : q kv <;>
        simp [List.filter_cons, hp, hq, dictGet_cons, hk, ih] <;>
        rw [hp, hq] at hpq <;> exact Bool.noConfusion hpq
    · cases hp : p kv <;> cases hq : q kv <;>
        simp [List.filter_cons, hp, hq, dictGet_cons, hk, ih]

theorem dictGet_dictUpdate (a b : List (PyStr × α)) (k : PyStr) :
    dictGet (dictUpdate a b) k = (dictGet b k).or (dictGet a k) := by
  induction a with
  | nil =>
    show dictGet ([] ++ b.filter fun kv => (dictGet [] kv.1).isNone) k = _
    have : (b.filter fun kv => (dictGet ([] : List (PyStr × α)) kv.1).isNone) = b := by
      simp [dictGet]
    rw [this]
    simp [dictGet]
  | cons kv rest ih =>
    have hfk : (match dictGet b kv.1 with
        | some v => (kv.1, v)
        | none => kv).1 = kv.1 := by
      cases dictGet b kv.1 <;> rfl
    by_cases hk : kv.1 = k
    · show dictGet ((match dictGet b kv.1 with
          | some v => (kv.1, v)
          | none => kv) :: _ ++ _) k = _
      rw [List.cons_append, dictGet_cons, hfk, if_pos hk]
      cases hb : dictGet b kv.1 with
      | some v =>
        rw [hk] at hb
        simp [hb, dictGet_cons, hk]
      | none =>
        rw [hk] at hb
        simp [hb, dictGet_cons, hk]
    · show dictGet ((match dictGet b kv.1 with
          | some v => (kv.1, v)
          | none => kv) :: _ ++ _) k = _
      rw [List.cons_append, dictGet_cons, hfk, if_neg hk]
      have hfilter : dictGet (b.filter fun kv' =>
            (dictGet (kv :: rest) kv'.1).isNone) k
          = dictGet (b.filter fun kv' => (dictGet rest kv'.1).isNone) k := by
        apply dictGet_filter_congr
        intro kv' hkv'
        rw [hkv', dictGet_cons, if_neg hk]
      rw [dictGet_append, hfilter]
      have ih' := ih
      unfold dictUpdate at ih'
      rw [dictGet_append] at ih'
      rw [ih', dictGet_cons, if_neg hk]

theorem mergeOne_ok_ne (out out' : SparkArgs) (key k : PyStr)
    (m : SparkVal → SparkVal → Except PyErr SparkVal) (d o : SparkArgs)
    (h : mergeOne out key m d o = .ok out') (hk : key ≠ k) :
    dictGet out' k = dictGet out k := by
  unfold mergeOne at h
  cases hd : dictGet d key <;> cases ho : dictGet o key <;>
      rw [hd, ho] at h <;> dsimp only at h
  · rw [show out' = out from (Except.ok.inj h).symm]
  · rw [show out' = out from (Except.ok.inj h).symm]
  · rw [show out' = out from (Except.ok.inj h).symm]
  · rename_i a b
    rcases hm : m a b with e | v <;> rw [hm] at h <;>
      simp only [exc_bind_error, exc_bind_ok, exc_pure] at h
    · exact Except.noConfusion h
    · rw [← Except.ok.inj h]
      exact dictGet_dictSet_ne _ _ _ _ hk

theorem mergeOne_ok_both (out out' : SparkArgs) (key : PyStr)
    (m : SparkVal → SparkVal → Except PyErr SparkVal) (d o : SparkArgs)
    (a b v : SparkVal)
    (hd : dictGet d key = some a) (ho : dictGet o key = some b)
    (hm : m a b = .ok v)
    (h : mergeOne out key m d o = .ok out') :
    out' = dictSet out key v := by
  unfold mergeOne at h
  rw [hd, ho] at h
  dsimp only at h
  rw [hm] at h
  simp only [exc_bind_ok, exc_pure] at h
  exact (Except.ok.inj h).symm




/-- Counterexample to C6 as stated: the configuration map is merged one
level deep (`dict(a, **b)`), not recursively. Merging a default whose
`conf.x` is `{a: 1}` with an override whose `conf.x` is `{b: 2}` yields
`conf.x = {b: 2}` — the default-only key `a` is dropped, whereas a
recursive merge with override winning on collisions would keep it and
yield `{a: 1, b: 2}`. -/
theorem C6_counterexample :
    (merge_spark_args confNestedDefault confNestedOverride).toOption.bind
        (fun r => confSubKeys r (pys "conf") (pys "x")) = some [pys "b"] ∧
    some [pys "b"] ≠ some [pys "a", pys "b"] := by
  exact ⟨rfl, by decide⟩

/-- Claim C6 (amended): `merge(default, override)` replaces scalar keys
with the override's value, concatenates the designated list-valued keys
(`packages` and `jars`) present in both as `default + "," + override`,
and merges the nested configuration map (`conf`) one level deep — on a
colliding configuration key the override's value replaces the default's
wholesale (no recursive descent). -/
theorem C6_merge :
    (∀ (d o r : SparkArgs) (k : PyStr),
      merge_spark_args d o = .ok r →
      k ≠ pys "conf" → k ≠ pys "packages" → k ≠ pys "jars" →
      dictGet r k = (dictGet o k).or (dictGet d k)) ∧
    (∀ (d o r : SparkArgs) (a b : PyStr),
      merge_spark_args d o = .ok r →
      dictGet d (pys "packages") = some (.str a) →
      dictGet o (pys "packages") = some (.str b) →
      dictGet r (pys "packages") = some (.str (a ++ ',' :: b))) ∧
    (∀ (d o r : SparkArgs) (a b : PyStr),
      merge_spark_args d o = .ok r →
      dictGet d (pys "jars") = some (.str a) →
      dictGet o (pys "jars") = some (.str b) →
      dictGet r (pys "jars") = some (.str (a ++ ',' :: b))) ∧
    (∀ (d o r : SparkArgs) (ma mb : List (PyStr × SparkVal)),
      merge_spark_args d o = .ok r →
      dictGet d (pys "conf") = some (.map ma) →
      dictGet o (pys "conf") = some (.map mb) →
      dictGet r (pys "conf") = some (.map (dictUpdate ma mb)) ∧
      ∀ k, dictGet (dictUpdate ma mb) k = (dictGet mb k).or (dictGet ma k)) := by
  have destruct : ∀ (d o r : SparkArgs), merge_spark_args d o = .ok r →
      ∃ out1 out2,
        mergeOne (dictUpdate d o) (pys "conf") confMerger d o = .ok out1 ∧
        mergeOne out1 (pys "packages") concatMerger d o = .ok out2 ∧
        mergeOne out2 (pys "jars") concatMerger d o = .ok r := by
    intro d o r h
    unfold merge_spark_args at h
    dsimp only at h
    rcases h1 : mergeOne (dictUpdate d o) (pys "conf") confMerger d o with e | out1
    · rw [h1, exc_bind_error] at h
      exact Except.noConfusion h
    rw [h1, exc_bind_ok] at h
    rcases h2 : mergeOne out1 (pys "packages") concatMerger d o with e | out2
    · rw [h2, exc_bind_error] at h
      exact Except.noConfusion h
    rw [h2, exc_bind_ok] at h
    rcases h3 : mergeOne out2 (pys "jars") concatMerger d o with e | out3
    · rw [h3, exc_bind_error] at h
      exact Except.noConfusion h
    rw [h3, exc_bind_ok, exc_pure] at h
    exact ⟨out1, out2, rfl, h2, by rw [← Except.ok.inj h]; exact h3⟩
  refine ⟨?_, ?_, ?_, ?_⟩
  · intro d o r k h hc hp hj
    obtain ⟨out1, out2, h1, h2, h3⟩ := destruct d o r h
    rw [mergeOne_ok_ne _ _ _ _ _ _ _ h3 (Ne.symm hj),
      mergeOne_ok_ne _ _ _ _ _ _ _ h2 (Ne.symm hp),
      mergeOne_ok_ne _ _ _ _ _ _ _ h1 (Ne.symm hc),
      dictGet_dictUpdate]
  · intro d o r a b h hd ho
    obtain ⟨out1, out2, h1, h2, h3⟩ := destruct d o r h
    rw [mergeOne_ok_ne _ _ _ _ _ _ _ h3 (by decide),
      mergeOne_ok_both _ _ _ _ _ _ _ _ _ hd ho rfl h2,
      dictGet_dictSet_self]
  · intro d o r a b h hd ho
    obtain ⟨out1, out2, h1, h2, h3⟩ := destruct d o r h
    rw [mergeOne_ok_both _ _ _ _ _ _ _ _ _ hd ho rfl h3,
      dictGet_dictSet_self]
  · intro d o r ma mb h hd ho
    obtain ⟨out1, out2, h1, h2, h3⟩ := destruct d o r h
    refine ⟨?_, fun k => dictGet_dictUpdate ma mb k⟩
    rw [mergeOne_ok_ne _ _ _ _ _ _ _ h3 (by decide),
      mergeOne_ok_ne _ _ _ _ _ _ _ h2 (by decide),
      mergeOne_ok_both _ _ _ _ _ _ _ _ _ hd ho rfl h1,
      dictGet_dictSet_self]

/-- Witness for C6: the `packages` lists of two concrete profiles
concatenate as `default + "," + override`. -/
theorem C6_merge_witness :
    dictGet [(pys "packages", SparkVal.str (pys "p1,p2"))] (pys "packages")
      = some (.str (pys "p1" ++ ',' :: pys "p2")) :=
  C6_merge.2.1 [(pys "packages", .str (pys "p1"))]
    [(pys "packages", .str (pys "p2"))]
    [(pys "packages", .str (pys "p1,p2"))]
    (pys "p1") (pys "p2") rfl rfl rfl

/-! ## Engine skip/publish control flow (C1, C10) -/



theorem execInner_no_push (op : Stage) (env : ExecEnv) (ds output_path : PyStr)
    (k v : PyStr) :
    Event.xcomPush k v ∉ (MjolnirOperator.execInner op env ds output_path).1 := by
  unfold MjolnirOperator.execInner
  dsimp only
  repeat' split
  all_goals simp

theorem execInner_ok_submit (op : Stage) (env : ExecEnv) (ds output_path : PyStr)
    (h : (MjolnirOperator.execInner op env ds output_path).2 = .ok ()) :
    env.submit_ok = true := by
  unfold MjolnirOperator.execInner at h
  dsimp only at h
  repeat' split at h
  all_goals first
    | assumption
    | (dsimp only at h; exact Except.noConfusion h)

/-- Claim C1: when the marker exists at the resolved output path joined
with the stage's marker name, `execute` performs exactly the marker check
and the output-path publication — no argument construction, no metadata
read, no auto-sizing, no submit — succeeds, and publishes the same
output-path record every successful run publishes last. -/
theorem C1_skip_semantics (op : Stage) (env : ExecEnv) (table_path ds : PyStr)
    (h : env.marker_exists = true) :
    (MjolnirOperator.execute op env table_path ds).2 = .ok () ∧
    (MjolnirOperator.execute op env table_path ds).1 =
      [.checkMarker (pyJoin2 (partition_path table_path op.partition_spec) op.marker),
       .xcomPush (pys "output-path") (partition_path table_path op.partition_spec)] ∧
    (∀ env' : ExecEnv, (MjolnirOperator.execute op env' table_path ds).2 = .ok () →
      (MjolnirOperator.execute op env' table_path ds).1.getLast?
        = some (.xcomPush (pys "output-path")
            (partition_path table_path op.partition_spec))) := by
  refine ⟨?_, ?_, ?_⟩
  · simp [MjolnirOperator.execute, h]
  · simp [MjolnirOperator.execute, h]
  · intro env' h'
    by_cases hm : env'.marker_exists
    · simp [MjolnirOperator.execute, hm]
    · unfold MjolnirOperator.execute at h' ⊢
      simp only [hm, Bool.false_eq_true, if_false] at h' ⊢
      rcases hres : MjolnirOperator.execInner op env' ds
          (partition_path table_path op.partition_spec) with ⟨evs, out⟩
      cases out with
      | ok u =>
        show (_ ++ evs ++ [Event.xcomPush _ _]).getLast? = _
        rw [List.append_assoc, List.getLast?_append, List.getLast?_concat]
        rfl
      | error e =>
        rw [hres] at h'
        exact Except.noConfusion h'

/-- Witness for C1: the full event trace of a skipped run of a concrete
stage. -/
theorem C1_skip_semantics_witness :
    (MjolnirOperator.execute exampleStage ⟨true, .obj [], true⟩
        (pys "/t") (pys "20250101")).1 =
      [.checkMarker (pyJoin2 (partition_path (pys "/t")
          exampleStage.partition_spec) exampleStage.marker),
       .xcomPush (pys "output-path")
          (partition_path (pys "/t") exampleStage.partition_spec)] :=
  (C1_skip_semantics exampleStage ⟨true, .obj [], true⟩
    (pys "/t") (pys "20250101") rfl).2.1

/-- Claim C10: when the marker is absent and the external submit fails,
`execute` fails and publishes nothing; in general the output-path record
is published only on a successful outcome (skip or successful submit). -/
theorem C10_publish_after_success (op : Stage) (env : ExecEnv)
    (table_path ds : PyStr) :
    (env.marker_exists = false → env.submit_ok = false →
      (MjolnirOperator.execute op env table_path ds).2.isOk = false ∧
      ∀ k v, Event.xcomPush k v ∉ (MjolnirOperator.execute op env table_path ds).1) ∧
    (∀ k v, Event.xcomPush k v ∈ (MjolnirOperator.execute op env table_path ds).1 →
      (MjolnirOperator.execute op env table_path ds).2 = .ok ()) := by
  constructor
  · intro hm hs
    unfold MjolnirOperator.execute
    simp only [hm, Bool.false_eq_true, if_false]
    rcases hres : MjolnirOperator.execInner op env ds
        (partition_path table_path op.partition_spec) with ⟨evs, out⟩
    cases out with
    | ok u =>
      exfalso
      have hok : env.submit_ok = true := by
        apply execInner_ok_submit op env ds (partition_path table_path op.partition_spec)
        rw [hres]
      rw [hs] at hok
      exact Bool.noConfusion hok
    | error e =>
      refine ⟨rfl, fun k v hmem => ?_⟩
      dsimp only at hmem
      simp only [List.mem_append, List.mem_singleton] at hmem
      rcases hmem with hc | hevs
      · exact Event.noConfusion hc
      · have hnp := execInner_no_push op env ds
          (partition_path table_path op.partition_spec) k v
        rw [hres] at hnp
        exact hnp hevs
  · intro k v hmem
    unfold MjolnirOperator.execute at hmem ⊢
    by_cases hm : env.marker_exists
    · simp [hm]
    · simp only [hm, Bool.false_eq_true, if_false] at hmem ⊢
      rcases hres : MjolnirOperator.execInner op env ds
          (partition_path table_path op.partition_spec) with ⟨evs, out⟩
      cases out with
      | ok u => rfl
      | error e =>
        exfalso
        rw [hres] at hmem
        dsimp only at hmem
        simp only [List.mem_append, List.mem_singleton] at hmem
        rcases hmem with hc | hevs
        · exact Event.noConfusion hc
        · have hnp := execInner_no_push op env ds
            (partition_path table_path op.partition_spec) k v
          rw [hres] at hnp
          exact hnp hevs

/-- Witness for C10: a concrete failed run has a non-ok outcome. -/
theorem C10_publish_after_success_witness :
    (MjolnirOperator.execute exampleStage ⟨false, .obj [], false⟩
        (pys "/t") (pys "20250101")).2.isOk = false :=
  ((C10_publish_after_success exampleStage ⟨false, .obj [], false⟩
    (pys "/t") (pys "20250101")).1 rfl rfl).1

/-! ## Null argument values (C7) -/

theorem renderOneArg_error (acc : List PyStr) (x : PyVal) (e : PyErr)
    (h : renderOneArg acc x = .error e) : e = .typeError := by
  cases x with
  | none => exact (Except.error.inj h).symm
  | int n => exact absurd h (by simp [renderOneArg, exc_pure])
  | str s => exact absurd h (by simp [renderOneArg, exc_pure])
  | list xs => exact absurd h (by simp [renderOneArg, exc_pure])

theorem renderOneArg_ok_of_not_none (acc : List PyStr) (x : PyVal)
    (h : PyVal.isNone x = false) :
    renderOneArg acc x = .ok (acc ++ [x.render]) := by
  cases x <;> simp [PyVal.isNone] at h <;> rfl

theorem foldlM_renderOneArg_error (l : List PyVal) (acc : List PyStr) (e : PyErr)
    (h : l.foldlM renderOneArg acc = .error e) : e = .typeError := by
  induction l generalizing acc with
  | nil =>
    have hnil : (([] : List PyVal).foldlM renderOneArg acc) = pure acc := rfl
    rw [hnil, exc_pure] at h
    exact Except.noConfusion h
  | cons x xs ih =>
    rw [List.foldlM_cons] at h
    cases hx : renderOneArg acc x with
    | error e' =>
      rw [hx, exc_bind_error] at h
      rw [← Except.error.inj h]
      exact renderOneArg_error acc x e' hx
    | ok a =>
      rw [hx, exc_bind_ok] at h
      exact ih a h

theorem foldlM_renderOneArg_none (l : List PyVal) (acc : List PyStr)
    (h : ∃ x ∈ l, PyVal.isNone x = true) :
    l.foldlM renderOneArg acc = .error .typeError := by
  induction l generalizing acc with
  | nil =>
    rcases h with ⟨x, hx, _⟩
    exact absurd hx (List.not_mem_nil x)
  | cons y ys ih =>
    rw [List.foldlM_cons]
    cases hy : PyVal.isNone y with
    | true =>
      have hyn : y = PyVal.none := by
        cases y <;> simp [PyVal.isNone] at hy <;> rfl
      subst hyn
      rw [show renderOneArg acc PyVal.none = .error .typeError from rfl,
        exc_bind_error]
    | false =>
      rcases h with ⟨x, hx, hxn⟩
      rcases List.mem_cons.mp hx with rfl | hxs
      · rw [hy] at hxn
        exact Bool.noConfusion hxn
      · rw [renderOneArg_ok_of_not_none acc y hy, exc_bind_ok]
        exact ih _ ⟨x, hxs, hxn⟩

theorem appendArg_error_eq (acc : List PyStr) (kv : PyStr × PyVal) (e : PyErr)
    (h : appendArg acc kv = .error e) : e = .typeError :=
  foldlM_renderOneArg_error _ _ _ h

theorem appendArg_hasNone (acc : List PyStr) (kv : PyStr × PyVal)
    (h : argHasNone kv.2 = true) :
    appendArg acc kv = .error .typeError := by
  unfold appendArg
  apply foldlM_renderOneArg_none
  rcases hv : kv.2 with _ | n | s | xs <;> rw [hv] at h
  · exact ⟨PyVal.none, by simp [argValues], rfl⟩
  · exact absurd h (by simp [argHasNone])
  · exact absurd h (by simp [argHasNone])
  · simp only [argHasNone, List.any_eq_true] at h
    rcases h with ⟨x, hx, hxn⟩
    exact ⟨x, by simpa [argValues] using hx, hxn⟩

theorem mem_insertSorted (le : α → α → Bool) (x y : α) (l : List α) :
    y ∈ insertSorted le x l ↔ y = x ∨ y ∈ l := by
  induction l with
  | nil => simp [insertSorted]
  | cons z zs ih =>
    by_cases h : le x z = true <;> simp [insertSorted, h, ih] <;> tauto

theorem mem_sortByKey (kv : PyStr × PyVal) (l : List (PyStr × PyVal)) :
    kv ∈ sortByKey l ↔ kv ∈ l := by
  unfold sortByKey
  induction l with
  | nil => simp
  | cons y ys ih => simp [List.foldr_cons, mem_insertSorted, ih]

theorem foldlM_appendArg_hasNone (l : List (PyStr × PyVal)) (init : List PyStr)
    (h : ∃ kv ∈ l, argHasNone kv.2 = true) :
    l.foldlM appendArg init = .error .typeError := by
  induction l generalizing init with
  | nil =>
    rcases h with ⟨kv, hkv, _⟩
    exact absurd hkv (List.not_mem_nil kv)
  | cons y ys ih =>
    rw [List.foldlM_cons]
    cases hy : appendArg init y with
    | error e =>
      rw [exc_bind_error, appendArg_error_eq init y e hy]
    | ok a =>
      rw [exc_bind_ok]
      rcases h with ⟨kv, hkv, hn⟩
      rcases List.mem_cons.mp hkv with rfl | hmem
      · rw [appendArg_hasNone init kv hn] at hy
        exact Except.noConfusion hy
      · exact ih a ⟨kv, hmem, hn⟩

theorem application_args_hasNone (t : PyStr) (args : List (PyStr × PyVal))
    (ds output_path : PyStr) (h : ∃ kv ∈ args, argHasNone kv.2 = true) :
    application_args t args ds output_path = .error .typeError := by
  unfold application_args
  apply foldlM_appendArg_hasNone
  rcases h with ⟨kv, hkv, hn⟩
  exact ⟨kv, (mem_sortByKey kv args).mpr hkv, hn⟩

theorem execInner_args_error (op : Stage) (env : ExecEnv)
    (ds output_path : PyStr) (e : PyErr)
    (h : application_args op.transformer op.transformer_args ds output_path
      = .error e) :
    MjolnirOperator.execInner op env ds output_path = ([.buildArgs], .error e) := by
  unfold MjolnirOperator.execInner
  rw [h]

/-- Counterexample to C7 as stated: constructing a stage whose argument
payload binds `foo` to a null value succeeds — the constructor stores the
payload unexamined and raises no construction-time error. -/
theorem C7_counterexample :
    (MjolnirOperator.init (pys "train") (pys "db.t") [] exampleDeploys
        (pys "20250101") (pys "_SUCCESS") Option.none
        [(pys "foo", PyVal.none)]).isOk = true := rfl

/-- Claim C7 (amended): a null argument value raises `TypeError` at
execution time, while the cli argument list is being built — before any
metadata read, auto-sizing or submit, and before any output-path record
is published — not at construction time. -/
theorem C7_null_arg_execution (op : Stage) (env : ExecEnv)
    (table_path ds : PyStr)
    (hnull : ∃ kv ∈ op.transformer_args, argHasNone kv.2 = true)
    (hm : env.marker_exists = false) :
    (MjolnirOperator.execute op env table_path ds).2 = .error .typeError ∧
    (MjolnirOperator.execute op env table_path ds).1 =
      [.checkMarker (pyJoin2 (partition_path table_path op.partition_spec)
        op.marker), .buildArgs] := by
  have happ := application_args_hasNone op.transformer op.transformer_args ds
    (partition_path table_path op.partition_spec) hnull
  have hinner := execInner_args_error op env ds
    (partition_path table_path op.partition_spec) .typeError happ
  unfold MjolnirOperator.execute
  simp only [hm, Bool.false_eq_true, if_false]
  rw [hinner]
  exact ⟨rfl, rfl⟩

/-- Witness for C7: executing a concrete stage with a null `foo` argument
fails with `TypeError`. -/
theorem C7_null_arg_execution_witness :
    (MjolnirOperator.execute nullArgStage ⟨false, .obj [], true⟩
        (pys "/t") (pys "20250101")).2 = .error .typeError :=
  (C7_null_arg_execution nullArgStage ⟨false, .obj [], true⟩
    (pys "/t") (pys "20250101")
    ⟨(pys "foo", PyVal.none), List.mem_singleton_self _, rfl⟩ rfl).1

/-! ## Partition-spec construction (C8) -/

/-- Counterexample to C8 as stated: the constructor does not enforce key
uniqueness — supplying a `date` entry (as the repository's own
`query_clicks_ltr` DAG does) yields a spec whose keys are
`[date, date]`. -/
theorem C8_counterexample :
    (MjolnirOperator.init (pys "train") (pys "db.t")
        [(pys "date", pys "20250101")] exampleDeploys (pys "20250101")).map
      (fun op => op.partition_spec.map Prod.fst)
      = .ok [pys "date", pys "date"] ∧
    ¬ List.Nodup [pys "date", pys "date"] := by
  exact ⟨rfl, by decide⟩

/-- Claim C8 (amended): every successfully constructed stage's partition
spec starts with a `date` entry bound to the run's logical date; key
uniqueness of the supplied sequence is not enforced. -/
theorem C8_partition_spec (task_id table : PyStr)
    (ps : List (PyStr × PyStr)) (dep : Deploys) (ds marker : PyStr)
    (tr : Option PyStr) (targs : List (PyStr × PyVal)) (sargs : SparkArgs)
    (md : Option PyStr) (op : Stage)
    (h : MjolnirOperator.init task_id table ps dep ds marker tr targs sargs md
      = .ok op) :
    op.partition_spec.head? = some (pys "date", ds) := by
  unfold MjolnirOperator.init at h
  dsimp only at h
  split at h
  · rw [← Except.ok.inj h]
    rfl
  · exact Except.noConfusion h

/-- Witness for C8: the date entry heads a concrete constructed spec. -/
theorem C8_partition_spec_witness :
    exampleStage.partition_spec.head? = some (pys "date", pys "20250101") :=
  C8_partition_spec (pys "query_clicks_ltr") (pys "discovery.query_clicks")
    [] exampleDeploys (pys "20250101") (pys "_SUCCESS") Option.none [] []
    Option.none exampleStage rfl

/-! ## Partition-path rendering (C9) -/

theorem getLast?_ne_of_not_mem (c : List Char) (x : Char) (h : x ∉ c) :
    c.getLast? ≠ some x := by
  intro hc
  have hmem : x ∈ c.getLast? := by rw [hc]; rfl
  obtain ⟨hne, heq⟩ := List.mem_getLast?_eq_getLast hmem
  rw [heq] at h
  exact h (List.getLast_mem hne)

theorem eq_marker_split (m : Char) :
    ∀ (k1 v1 k2 v2 : List Char), m ∉ k1 → m ∉ k2 →
      k1 ++ m :: v1 = k2 ++ m :: v2 → k1 = k2 ∧ v1 = v2 := by
  intro k1
  induction k1 with
  | nil =>
    intro v1 k2 v2 h1 h2 he
    cases k2 with
    | nil =>
      injection he with _ hv
      exact ⟨rfl, hv⟩
    | cons b bs =>
      injection he with hb _
      subst hb
      exact absurd (List.mem_cons_self _ _) h2
  | cons a as ih =>
    intro v1 k2 v2 h1 h2 he
    cases k2 with
    | nil =>
      injection he with hb _
      rw [hb] at h1
      exact absurd (List.mem_cons_self _ _) h1
    | cons b bs =>
      injection he with hab htl
      obtain ⟨hk, hv⟩ := ih v1 bs v2
        (fun hm => h1 (List.mem_cons_of_mem a hm))
        (fun hm => h2 (List.mem_cons_of_mem b hm)) htl
      exact ⟨by rw [hab, hk], hv⟩

theorem chunk_head_eq :
    ∀ (c d r1 r2 : List Char), '/' ∉ c → '/' ∉ d →
      (r1 = [] ∨ ∃ t, r1 = '/' :: t) → (r2 = [] ∨ ∃ t, r2 = '/' :: t) →
      c ++ r1 = d ++ r2 → c = d ∧ r1 = r2 := by
  intro c
  induction c with
  | nil =>
    intro d r1 r2 hc hd h1 h2 he
    cases d with
    | nil => exact ⟨rfl, he⟩
    | cons b bs =>
      rcases h1 with rfl | ⟨t, rfl⟩
      · exact List.noConfusion he
      · injection he with hb _
        subst hb
        exact absurd (List.mem_cons_self _ _) hd
  | cons a as ih =>
    intro d r1 r2 hc hd h1 h2 he
    cases d with
    | nil =>
      rcases h2 with rfl | ⟨t, rfl⟩
      · exact List.noConfusion he
      · injection he with hb _
        rw [hb] at hc
        exact absurd (List.mem_cons_self _ _) hc
    | cons b bs =>
      injection he with hab htl
      obtain ⟨hk, hr⟩ := ih bs r1 r2
        (fun hm => hc (List.mem_cons_of_mem a hm))
        (fun hm => hd (List.mem_cons_of_mem b hm)) h1 h2 htl
      exact ⟨by rw [hab, hk], hr⟩

theorem slashJoin_ne_nil (c : PyStr) (rest : List PyStr) (hc : c ≠ []) :
    slashJoin (c :: rest) ≠ [] := by
  cases rest with
  | nil => simpa [slashJoin] using hc
  | cons d ds => simp [slashJoin]

theorem head?_slashJoin (c : PyStr) (rest : List PyStr) (hc : c ≠ []) :
    (slashJoin (c :: rest)).head? = c.head? := by
  cases rest with
  | nil => rfl
  | cons d ds =>
    show (c ++ '/' :: slashJoin (d :: ds)).head? = c.head?
    cases c with
    | nil => exact absurd rfl hc
    | cons x xs => rfl

theorem head?_ne_slash (c : PyStr) (hc : c ≠ []) (hcs : '/' ∉ c) :
    c.head? ≠ some '/' := by
  cases c with
  | nil => exact absurd rfl hc
  | cons x xs =>
    simp only [List.head?_cons, ne_eq, Option.some.injEq]
    intro h
    subst h
    exact hcs (List.mem_cons_self _ _)

theorem slashJoin_inj :
    ∀ (l1 l2 : List PyStr),
      (∀ c ∈ l1, c ≠ [] ∧ '/' ∉ c) → (∀ c ∈ l2, c ≠ [] ∧ '/' ∉ c) →
      slashJoin l1 = slashJoin l2 → l1 = l2 := by
  intro l1
  induction l1 with
  | nil =>
    intro l2 h1 h2 he
    cases l2 with
    | nil => rfl
    | cons c cs =>
      exact absurd he.symm
        (slashJoin_ne_nil c cs (h2 c (List.mem_cons_self c cs)).1)
  | cons c cs ih =>
    intro l2 h1 h2 he
    cases l2 with
    | nil =>
      exact absurd he (slashJoin_ne_nil c cs (h1 c (List.mem_cons_self c cs)).1)
    | cons d ds =>
      have hc := h1 c (List.mem_cons_self c cs)
      have hd := h2 d (List.mem_cons_self d ds)
      cases cs with
      | nil =>
        cases ds with
        | nil =>
          rw [show slashJoin [c] = c from rfl, show slashJoin [d] = d from rfl] at he
          rw [he]
        | cons d2 ds2 =>
          rw [show slashJoin [c] = c from rfl,
            show slashJoin (d :: d2 :: ds2)
              = d ++ '/' :: slashJoin (d2 :: ds2) from rfl] at he
          have hsplit := chunk_head_eq c d [] ('/' :: slashJoin (d2 :: ds2))
            hc.2 hd.2 (Or.inl rfl) (Or.inr ⟨_, rfl⟩) (by simpa using he)
          exact List.noConfusion hsplit.2
      | cons c2 cs2 =>
        cases ds with
        | nil =>
          rw [show slashJoin [d] = d from rfl,
            show slashJoin (c :: c2 :: cs2)
              = c ++ '/' :: slashJoin (c2 :: cs2) from rfl] at he
          have hsplit := chunk_head_eq c d ('/' :: slashJoin (c2 :: cs2)) []
            hc.2 hd.2 (Or.inr ⟨_, rfl⟩) (Or.inl rfl) (by simpa using he)
          exact List.noConfusion hsplit.2
        | cons d2 ds2 =>
          rw [show slashJoin (c :: c2 :: cs2)
              = c ++ '/' :: slashJoin (c2 :: cs2) from rfl,
            show slashJoin (d :: d2 :: ds2)
              = d ++ '/' :: slashJoin (d2 :: ds2) from rfl] at he
          obtain ⟨hcd, hr⟩ := chunk_head_eq c d
            ('/' :: slashJoin (c2 :: cs2)) ('/' :: slashJoin (d2 :: ds2))
            hc.2 hd.2 (Or.inr ⟨_, rfl⟩) (Or.inr ⟨_, rfl⟩) he
          injection hr with _ hsj
          have htail := ih (d2 :: ds2)
            (fun x hx => h1 x (List.mem_cons_of_mem c hx))
            (fun x hx => h2 x (List.mem_cons_of_mem d hx)) hsj
          rw [hcd, htail]

theorem pyJoin2_chain (base c s : PyStr) (hc : c ≠ []) (hcs : '/' ∉ c)
    (hs : s.head? ≠ some '/') :
    pyJoin2 (pyJoin2 base c) s = pyJoin2 base (c ++ '/' :: s) := by
  have hchead : (c ++ '/' :: s).head? = c.head? := by
    cases c with
    | nil => exact absurd rfl hc
    | cons x xs => rfl
  have hcheadne := head?_ne_slash c hc hcs
  by_cases hb : base = [] ∨ base.getLast? = some '/'
  · have hX : pyJoin2 base c = base ++ c := by
      unfold pyJoin2
      rw [if_neg hcheadne, if_pos hb]
    have hXne : base ++ c ≠ [] := by simp [hc]
    have hXlast : (base ++ c).getLast? ≠ some '/' := by
      rw [List.getLast?_append_of_ne_nil base hc]
      exact getLast?_ne_of_not_mem c '/' hcs
    have hR : pyJoin2 base (c ++ '/' :: s) = base ++ (c ++ '/' :: s) := by
      unfold pyJoin2
      rw [hchead, if_neg hcheadne, if_pos hb]
    rw [hX, hR]
    unfold pyJoin2
    have hno : ¬(base ++ c = [] ∨ (base ++ c).getLast? = some '/') := by
      rintro (h | h)
      · exact hXne h
      · exact hXlast h
    rw [if_neg hs, if_neg hno, List.append_assoc]
  · have hX : pyJoin2 base c = base ++ '/' :: c := by
      unfold pyJoin2
      rw [if_neg hcheadne, if_neg hb]
    have hXne : base ++ '/' :: c ≠ [] := by simp
    have hXlast : (base ++ '/' :: c).getLast? ≠ some '/' := by
      rw [List.getLast?_append_cons,
        show ('/' :: c : PyStr) = ['/'] ++ c from rfl,
        List.getLast?_append_of_ne_nil ['/'] hc]
      exact getLast?_ne_of_not_mem c '/' hcs
    have hR : pyJoin2 base (c ++ '/' :: s) = base ++ '/' :: (c ++ '/' :: s) := by
      unfold pyJoin2
      rw [hchead, if_neg hcheadne, if_neg hb]
    rw [hX, hR]
    unfold pyJoin2
    have hno : ¬(base ++ '/' :: c = [] ∨ (base ++ '/' :: c).getLast? = some '/') := by
      rintro (h | h)
      · exact hXne h
      · exact hXlast h
    rw [if_neg hs, if_neg hno, List.append_assoc]
    rfl

theorem foldl_pyJoin2_eq (rest : List PyStr) :
    ∀ (c : PyStr) (base : PyStr),
      (∀ x ∈ c :: rest, x ≠ [] ∧ '/' ∉ x) →
      (c :: rest).foldl pyJoin2 base = pyJoin2 base (slashJoin (c :: rest)) := by
  induction rest with
  | nil => intro c base _; rfl
  | cons d ds ih =>
    intro c base h
    have hc := h c (List.mem_cons_self c (d :: ds))
    have hd := h d (List.mem_cons_of_mem c (List.mem_cons_self d ds))
    rw [List.foldl_cons,
      ih d (pyJoin2 base c) (fun x hx => h x (List.mem_cons_of_mem c hx)),
      show slashJoin (c :: d :: ds) = c ++ '/' :: slashJoin (d :: ds) from rfl,
      pyJoin2_chain base c (slashJoin (d :: ds)) hc.1 hc.2]
    rw [head?_slashJoin d ds hd.1]
    exact head?_ne_slash d hd.1 hd.2

theorem pyJoin2_length_lt (base s : PyStr) (hs : s ≠ [])
    (hhead : s.head? ≠ some '/') :
    base.length < (pyJoin2 base s).length := by
  have hslen : 0 < s.length := List.length_pos.mpr hs
  unfold pyJoin2
  rw [if_neg hhead]
  by_cases hb : base = [] ∨ base.getLast? = some '/'
  · rw [if_pos hb]
    simp only [List.length_append]
    omega
  · rw [if_neg hb]
    simp only [List.length_append, List.length_cons]
    omega

theorem pyJoin2_same_base_inj (base j1 j2 : PyStr) (h1 : j1.head? ≠ some '/')
    (h2 : j2.head? ≠ some '/') (he : pyJoin2 base j1 = pyJoin2 base j2) :
    j1 = j2 := by
  unfold pyJoin2 at he
  rw [if_neg h1, if_neg h2] at he
  by_cases hb : base = [] ∨ base.getLast? = some '/'
  · rw [if_pos hb, if_pos hb] at he
    exact List.append_cancel_left he
  · rw [if_neg hb, if_neg hb] at he
    have hcons := List.append_cancel_left he
    injection hcons

theorem comp_seg_valid (kv : PyStr × PyStr) (hk : '/' ∉ kv.1) (hv : '/' ∉ kv.2) :
    (kv.1 ++ '=' :: kv.2) ≠ [] ∧ '/' ∉ (kv.1 ++ '=' :: kv.2) := by
  constructor
  · simp
  · intro h
    rcases List.mem_append.mp h with h | h
    · exact hk h
    · rcases List.mem_cons.mp h with h | h
      · exact absurd h (by decide)
      · exact hv h

theorem map_comp_seg_inj :
    ∀ (s1 s2 : List (PyStr × PyStr)),
      (∀ kv ∈ s1, '=' ∉ kv.1) → (∀ kv ∈ s2, '=' ∉ kv.1) →
      s1.map (fun kv => kv.1 ++ '=' :: kv.2)
        = s2.map (fun kv => kv.1 ++ '=' :: kv.2) →
      s1 = s2 := by
  intro s1
  induction s1 with
  | nil =>
    intro s2 _ _ he
    cases s2 with
    | nil => rfl
    | cons kv2 r2 => exact List.noConfusion he
  | cons kv1 r1 ih =>
    intro s2 hk1 hk2 he
    cases s2 with
    | nil => exact List.noConfusion he
    | cons kv2 r2 =>
      injection he with hh ht
      obtain ⟨hk, hv⟩ := eq_marker_split '=' kv1.1 kv1.2 kv2.1 kv2.2
        (hk1 kv1 (List.mem_cons_self kv1 r1))
        (hk2 kv2 (List.mem_cons_self kv2 r2)) hh
      rw [show kv1 = kv2 from Prod.ext hk hv,
        ih r2 (fun kv hkv => hk1 kv (List.mem_cons_of_mem kv1 hkv))
          (fun kv hkv => hk2 kv (List.mem_cons_of_mem kv2 hkv)) ht]

/-- Counterexample to C9 as stated: two different specs whose values
satisfy the claim's validity condition (non-empty, no path separator)
render to the same path once a key contains `=` — `[(a=b, c)]` and
`[(a, b=c)]` both render to `/t/a=b=c`. -/
theorem C9_counterexample :
    partition_path (pys "/t") [(pys "a=b", pys "c")]
      = partition_path (pys "/t") [(pys "a", pys "b=c")] ∧
    [(pys "a=b", pys "c")] ≠ [(pys "a", pys "b=c")] ∧
    (pys "c" ≠ [] ∧ '/' ∉ pys "c" ∧ pys "b=c" ≠ [] ∧ '/' ∉ pys "b=c") := by
  refine ⟨rfl, by decide, by decide⟩

/-- Claim C9 (amended): rendering is a pure function of the base path and
the spec (it is defined as one), and for a fixed base path it is injective
on specs whose keys contain no `=` and no path separator and whose values
are non-empty and contain no path separator. -/
theorem C9_render_injective (base : PyStr) (s1 s2 : List (PyStr × PyStr))
    (h1 : ∀ kv ∈ s1, '=' ∉ kv.1 ∧ '/' ∉ kv.1 ∧ kv.2 ≠ [] ∧ '/' ∉ kv.2)
    (h2 : ∀ kv ∈ s2, '=' ∉ kv.1 ∧ '/' ∉ kv.1 ∧ kv.2 ≠ [] ∧ '/' ∉ kv.2)
    (he : partition_path base s1 = partition_path base s2) :
    s1 = s2 := by
  have hcomp1 : ∀ c ∈ s1.map (fun kv => kv.1 ++ '=' :: kv.2), c ≠ [] ∧ '/' ∉ c := by
    intro c hc
    rcases List.mem_map.mp hc with ⟨kv, hkv, rfl⟩
    exact comp_seg_valid kv (h1 kv hkv).2.1 (h1 kv hkv).2.2.2
  have hcomp2 : ∀ c ∈ s2.map (fun kv => kv.1 ++ '=' :: kv.2), c ≠ [] ∧ '/' ∉ c := by
    intro c hc
    rcases List.mem_map.mp hc with ⟨kv, hkv, rfl⟩
    exact comp_seg_valid kv (h2 kv hkv).2.1 (h2 kv hkv).2.2.2
  cases hs1 : s1 with
  | nil =>
    cases hs2 : s2 with
    | nil => rfl
    | cons kv2 r2 =>
      exfalso
      rw [hs1, hs2] at he
      rw [hs2] at hcomp2
      have hlen : base.length
          < (partition_path base (kv2 :: r2)).length := by
        unfold partition_path
        rw [List.map_cons, foldl_pyJoin2_eq _ _ _ (by
          intro x hx
          apply hcomp2 x
          simp only [List.map_cons]
          exact hx)]
        have hkv2 := hcomp2 (kv2.1 ++ '=' :: kv2.2)
          (List.mem_map.mpr ⟨kv2, List.mem_cons_self kv2 r2, rfl⟩)
        apply pyJoin2_length_lt
        · exact slashJoin_ne_nil _ _ hkv2.1
        · rw [head?_slashJoin _ _ hkv2.1]
          exact head?_ne_slash _ hkv2.1 hkv2.2
      rw [show partition_path base ([] : List (PyStr × PyStr)) = base from rfl]
        at he
      rw [← he] at hlen
      omega
  | cons kv1 r1 =>
    cases hs2 : s2 with
    | nil =>
      exfalso
      rw [hs1, hs2] at he
      rw [hs1] at hcomp1
      have hlen : base.length
          < (partition_path base (kv1 :: r1)).length := by
        unfold partition_path
        rw [List.map_cons, foldl_pyJoin2_eq _ _ _ (by
          intro x hx
          apply hcomp1 x
          simp only [List.map_cons]
          exact hx)]
        have hkv1 := hcomp1 (kv1.1 ++ '=' :: kv1.2)
          (List.mem_map.mpr ⟨kv1, List.mem_cons_self kv1 r1, rfl⟩)
        apply pyJoin2_length_lt
        · exact slashJoin_ne_nil _ _ hkv1.1
        · rw [head?_slashJoin _ _ hkv1.1]
          exact head?_ne_slash _ hkv1.1 hkv1.2
      rw [show partition_path base ([] : List (PyStr × PyStr)) = base from rfl]
        at he
      rw [he] at hlen
      omega
    | cons kv2 r2 =>
      rw [hs1] at hcomp1
      rw [hs2] at hcomp2
      rw [hs1, hs2] at he
      unfold partition_path at he
      rw [List.map_cons, List.map_cons,
        foldl_pyJoin2_eq _ _ _ (by
          intro x hx
          apply hcomp1 x
          simp only [List.map_cons]
          exact hx),
        foldl_pyJoin2_eq _ _ _ (by
          intro x hx
          apply hcomp2 x
          simp only [List.map_cons]
          exact hx)] at he
      have hkv1 := hcomp1 (kv1.1 ++ '=' :: kv1.2)
        (List.mem_map.mpr ⟨kv1, List.mem_cons_self kv1 r1, rfl⟩)
      have hkv2 := hcomp2 (kv2.1 ++ '=' :: kv2.2)
        (List.mem_map.mpr ⟨kv2, List.mem_cons_self kv2 r2, rfl⟩)
      have hsj : slashJoin ((kv1.1 ++ '=' :: kv1.2) :: r1.map
            (fun kv => kv.1 ++ '=' :: kv.2))
          = slashJoin ((kv2.1 ++ '=' :: kv2.2) :: r2.map
            (fun kv => kv.1 ++ '=' :: kv.2)) := by
        apply pyJoin2_same_base_inj base
        · rw [head?_slashJoin _ _ hkv1.1]
          exact head?_ne_slash _ hkv1.1 hkv1.2
        · rw [head?_slashJoin _ _ hkv2.1]
          exact head?_ne_slash _ hkv2.1 hkv2.2
        · exact he
      have hcomps := slashJoin_inj _ _
        (by
          intro x hx
          apply hcomp1 x
          simp only [List.map_cons]
          exact hx)
        (by
          intro x hx
          apply hcomp2 x
          simp only [List.map_cons]
          exact hx) hsj
      have hcomps' : (kv1 :: r1).map (fun kv => kv.1 ++ '=' :: kv.2)
          = (kv2 :: r2).map (fun kv => kv.1 ++ '=' :: kv.2) := by
        simp only [List.map_cons]
        exact hcomps
      rw [hs1] at h1
      rw [hs2] at h2
      exact map_comp_seg_inj (kv1 :: r1) (kv2 :: r2)
        (fun kv hkv => (h1 kv hkv).1) (fun kv hkv => (h2 kv hkv).1) hcomps'

/-- Witness for C9: the injectivity theorem applied at a concrete valid
spec (trivial equality of renders forces equality of specs). -/
theorem C9_render_injective_witness :
    [(pys "algorithm", pys "norm_query")] = [(pys "algorithm", pys "norm_query")] :=
  C9_render_injective (pys "/t")
    [(pys "algorithm", pys "norm_query")] [(pys "algorithm", pys "norm_query")]
    (by decide) (by decide) rfl

end Mjolnir
